import Mathlib

/-!
Verification development for the core of `father-file-numberer`
(`src/main.rs`): filename pattern extraction, range filtering, offset
application, width padding via the table-driven `log10`, and the
recursive directory walker `process_directory`.

The Rust code is shallowly embedded:

* Filenames are `List Char`.  `entry.file_name().to_str()` returns an
  `Option<&str>`; an entry's name is therefore modelled as
  `Option (List Char)`, with `none` standing for a name that is not
  valid UTF-8 (on which the code's `.unwrap()` panics).
* Machine integers are `Nat`/`Int`.  The `i32` parse at
  `captures.get(2)...parse().unwrap()` succeeds exactly when the digit
  run's value is at most `2147483647`; the failure (a Rust panic) is an
  explicit `PanicKind.parseOverflow` outcome.  Likewise
  `u32::try_from(adjusted_number).unwrap()` fails exactly when the
  adjusted number is negative (`PanicKind.negativeForWidth`).
* The walker returns the list of renames it performed before finishing
  or panicking, together with `Option PanicKind`.  `fs::rename` failures
  only change what is printed, not the control flow, so renames are
  recorded unconditionally; printing is not modelled.  `fs::read_dir`
  errors (absent in a pure tree) are not modelled.
* The adjuster closure `|x| x + offset` is embedded as mathematical
  `Int` addition.
-/

namespace FFN

/-- Filenames are lists of characters. -/
abbrev Name := List Char

/-! ## The table-driven digit counter (`log2` / `log10`, main.rs 201-227) -/

/-- Bit length of a natural number, computed with explicit fuel.
`bitLen 32 n` is the bit length of a `u32`, so that
`n.leading_zeros() = 32 - bitLen 32 n`, which is what the intrinsic in
`log2` computes. -/
def bitLen : Nat → Nat → Nat
  | 0, _ => 0
  | f + 1, n => if n = 0 then 0 else bitLen f (n / 2) + 1

/-- Model of `u32::leading_zeros` for `n < 2^32`. -/
def leading_zeros (n : Nat) : Nat := 32 - bitLen 32 n

/-- Embeds `fn log2(n: u32) -> u32` (main.rs 201-207):
`if n != 0 { 32 - n.leading_zeros() } else { 0 }`. -/
def log2 (n : Nat) : Nat := if n ≠ 0 then 32 - leading_zeros n else 0

/-- The `GUESS` table of `fn log10` (main.rs 210-215), 33 entries. -/
def GUESS : List Nat :=
  [0, 0, 0, 0, 1, 1, 1, 2, 2, 2,
   3, 3, 3, 3, 4, 4, 4, 5, 5, 5,
   6, 6, 6, 6, 7, 7, 7, 8, 8, 8,
   9, 9, 9]

/-- The `TEN_TO_THE` table of `fn log10` (main.rs 216-219), 10 entries. -/
def TEN_TO_THE : List Nat :=
  [1, 10, 100, 1000, 10000, 100000,
   1000000, 10000000, 100000000, 1000000000]

/-- Embeds `fn log10(n: u32) -> u8` (main.rs 209-227).  The two array
indexings panic when out of bounds, so they are modelled by `getElem?`;
`none` is an index panic, proved below never to happen for `u32`
inputs. -/
def log10? (n : Nat) : Option Nat :=
  match GUESS[log2 n]? with
  | none => none
  | some digits =>
    match TEN_TO_THE[digits]? with
    | none => none
    | some t => some (digits + if t ≤ n then 1 else 0)

/-- Total wrapper for `log10?`, used by the walker, whose arguments
are always in bounds. -/
def log10 (n : Nat) : Nat := (log10? n).getD 0

/-! ## The filename matcher

The source compiles `Regex::new(r"^(.*?)([0-9]+)(.*?)$")` once and calls
`.captures(filename)` (main.rs 114-123).  Under the regex crate's
default semantics: `.` matches any character except `'\n'`; `^`/`$`
match only at the start/end of the haystack; matching is leftmost-first,
so the lazy `(.*?)` before the digit group is as short as possible and
the greedy `([0-9]+)` then takes the whole digit run; the trailing lazy
`(.*?)$` is forced to the end of the haystack.  Consequently the
pattern matches iff the filename contains an ASCII digit and contains
no `'\n'` anywhere (a `'\n'` would have to be covered by one of the two
`.*?` groups, which `.` cannot do), and on a match group 1 is
everything before the first digit, group 2 the first maximal digit run,
group 3 the verbatim rest. -/
def captures (s : Name) : Option (Name × Name × Name) :=
  if '\n' ∈ s then none
  else
    match s.dropWhile (fun c => !c.isDigit) with
    | [] => none
    | rest@(_ :: _) =>
      some (s.takeWhile (fun c => !c.isDigit),
            rest.takeWhile Char.isDigit,
            rest.dropWhile Char.isDigit)

/-- Numeric value of a digit run, i.e. what `str::parse::<i32>` returns
on an all-digit string when it fits (the parse itself is modelled in
`processCandidate`, where overflow is a panic). -/
def digitsVal (d : Name) : Nat := d.foldl (fun a c => 10 * a + (c.toNat - 48)) 0

/-- Decimal rendering of a `Nat`, as `format!("{}")` produces it. -/
def natStr (n : Nat) : Name := Nat.toDigits 10 n

/-- Decimal rendering of an `i32`, as `format!("{}", adjusted_number)`
produces it: optional leading minus, then the digits of the absolute
value. -/
def intStr (i : Int) : Name :=
  if i < 0 then '-' :: natStr (-i).toNat else natStr i.toNat

/-! ## The directory walker -/

/-- The configuration threaded (by reference) through
`process_directory`.  `stop` models the Rust variable `end` (a Lean
keyword). -/
structure Config where
  recursive : Bool
  start : Option Int
  stop : Option Int
  dry_run : Bool
  number_width : Option Nat
  offset : Int

/-- Panics the walker can hit, each a `.unwrap()` in the source:
`invalidUtf8` from `os_filename.to_str().unwrap()` (line 118),
`parseOverflow` from `...parse().unwrap()` (line 122),
`negativeForWidth` from `u32::try_from(adjusted_number).unwrap()`
(line 134). -/
inductive PanicKind where
  | invalidUtf8
  | parseOverflow
  | negativeForWidth
deriving DecidableEq, Repr

/-- Embeds the range check (main.rs 126-128):
`start.map_or(true, |s| number >= s) && end.map_or(true, |e| number <= e)`. -/
def range_ok (start stop : Option Int) (number : Int) : Bool :=
  (match start with | none => true | some s => decide (s ≤ number)) &&
  (match stop with | none => true | some e => decide (number ≤ e))

/-- An entry of a directory: a file, or a subdirectory with its own
entries.  The name is `none` when it is not valid UTF-8. -/
inductive Entry where
  | file : Option Name → Entry
  | dir : Option Name → List Entry → Entry

/-- Model of the cast `width as i32` (main.rs 134): `width` is a
`u32`, and `as` wraps, so a width at or above `2^31` becomes negative.
(`usize::try_from(cmp::max(0, needed_zeros))` then clamps the pad to
0 for such widths.) -/
def i32_of_u32 (w : Nat) : Int :=
  if w < 2147483648 then (w : Int) else (w : Int) - 4294967296

/-- Embeds the per-entry `else` branch of `process_directory`
(main.rs 113-174): the branch every file reaches, and every directory
reaches when `recursive` is off.  Returns the renames performed
(source name, destination name) and an optional panic.  A rename is
recorded exactly when the name matches, the number is in range, the
padding computation does not panic, and `dry_run` is off.  The pad is
`cmp::max(0, width as i32 - log10(...) as i32)`: the `u32` width goes
through the wrapping cast `i32_of_u32`; the subtraction itself is
exact `Int` arithmetic (like the adjuster's addition), which agrees
with `i32` subtraction whenever the digit count subtrahend is 0 — in
particular wherever the theorems below evaluate the pad, the adjusted
number being 0 there. -/
def processCandidate (cfg : Config) (name? : Option Name) :
    List (Name × Name) × Option PanicKind :=
  match name? with
  | none => ([], some PanicKind.invalidUtf8)
  | some filename =>
    match captures filename with
    | none => ([], none)
    | some (pre, d, suf) =>
      if 2147483647 < digitsVal d then ([], some PanicKind.parseOverflow)
      else
        let number : Int := (digitsVal d : Int)
        if range_ok cfg.start cfg.stop number then
          let adjusted := number + cfg.offset
          let padE : Except PanicKind Nat :=
            match cfg.number_width with
            | some width =>
              if adjusted < 0 then Except.error PanicKind.negativeForWidth
              else Except.ok (max 0 (i32_of_u32 width - (log10 adjusted.toNat : Int))).toNat
            | none => Except.ok 0
          match padE with
          | Except.error pk => ([], some pk)
          | Except.ok pad =>
            let newName := pre ++ List.replicate pad '0' ++ intStr adjusted ++ suf
            if cfg.dry_run then ([], none) else ([(filename, newName)], none)
        else ([], none)

/-- Sequencing of one loop iteration of `process_directory` with the
rest of the walk: a panic in the head aborts (the source `panic!`
unwinds out of the loop), otherwise the walk continues and the
performed renames accumulate. -/
def step (head r2 : List (Name × Name) × Option PanicKind) :
    List (Name × Name) × Option PanicKind :=
  match head.2 with
  | some pk => (head.1, some pk)
  | none => (head.1 ++ r2.1, r2.2)

/-- Embeds `fn process_directory` (main.rs 104-177) over a pure
directory tree.  Head entry first: a subdirectory is recursed into when
`cfg.recursive` is set and otherwise handed to the candidate branch,
exactly like the source's `if recursive && path.is_dir()`.  A panic
aborts the whole walk, keeping the renames already performed. -/
def processDir (cfg : Config) : List Entry → List (Name × Name) × Option PanicKind
  | [] => ([], none)
  | Entry.file n :: rest => step (processCandidate cfg n) (processDir cfg rest)
  | Entry.dir n children :: rest =>
    step (if cfg.recursive then processDir cfg children else processCandidate cfg n)
      (processDir cfg rest)

/-- Names of the file entries of a tree (valid-UTF-8 ones), at any
depth.  Used to state that in recursive mode every rename source is a
file's name, never a directory's. -/
def fileNames : List Entry → List Name
  | [] => []
  | Entry.file (some n) :: rest => n :: fileNames rest
  | Entry.file none :: rest => fileNames rest
  | Entry.dir _ children :: rest => fileNames children ++ fileNames rest

/-! ## Helper lemmas about `bitLen`, `log2` and the tables -/

theorem bitLen_zero (f : Nat) : bitLen f 0 = 0 := by cases f <;> rfl

theorem bitLen_le (f : Nat) : ∀ n, bitLen f n ≤ f := by
  induction f with
  | zero => intro n; exact Nat.le_refl 0
  | succ f ih =>
    intro n
    unfold bitLen
    split
    · omega
    · have := ih (n / 2); omega

theorem bitLen_bounds (f : Nat) : ∀ n, 0 < n → n < 2 ^ f →
    2 ^ (bitLen f n - 1) ≤ n ∧ n < 2 ^ bitLen f n := by
  induction f with
  | zero => intro n h0 hf; simp at hf; omega
  | succ f ih =>
    intro n h0 hf
    unfold bitLen
    rw [if_neg (by omega)]
    by_cases hz : n / 2 = 0
    · have hn1 : n = 1 := by omega
      rw [hz, bitLen_zero]
      subst hn1
      norm_num
    · have hhalf : n / 2 < 2 ^ f := by
        have : (2:Nat) ^ (f + 1) = 2 ^ f * 2 := pow_succ 2 f
        omega
      obtain ⟨ihlo, ihhi⟩ := ih (n / 2) (by omega) hhalf
      have hbl1 : 1 ≤ bitLen f (n / 2) := by
        by_contra hc
        have : bitLen f (n / 2) = 0 := by omega
        rw [this] at ihhi
        simp at ihhi
        omega
      have e1 : (2:Nat) ^ bitLen f (n / 2) = 2 ^ (bitLen f (n / 2) - 1) * 2 := by
        conv_lhs => rw [show bitLen f (n / 2) = (bitLen f (n / 2) - 1) + 1 from by omega,
          pow_succ]
      have e2 : (2:Nat) ^ (bitLen f (n / 2) + 1) = 2 ^ bitLen f (n / 2) * 2 := pow_succ 2 _
      constructor
      · simp only [Nat.add_sub_cancel]
        omega
      · omega

theorem log2_le_32 (n : Nat) : log2 n ≤ 32 := by
  unfold log2 leading_zeros
  split <;> omega

theorem log2_spec (n : Nat) (h0 : 0 < n) : log2 n = bitLen 32 n := by
  unfold log2 leading_zeros
  rw [if_pos (by omega)]
  have := bitLen_le 32 n
  omega

theorem guess_fact : ∀ k, k < 33 → 1 ≤ k →
    10 ^ ((GUESS[k]?).getD 0) ≤ 10 * 2 ^ (k - 1)
    ∧ 2 ^ k ≤ 10 ^ ((GUESS[k]?).getD 0 + 1) := by decide

theorem guess_le9 : ∀ k, k < 33 → (GUESS[k]?).getD 0 ≤ 9 := by decide

theorem guess_isSome : ∀ k, k < 33 → (GUESS[k]?).isSome = true := by decide

theorem ten_fact : ∀ g, g < 10 → TEN_TO_THE[g]? = some (10 ^ g) := by decide

/-! ## Helper lemmas about lists and the walker -/

theorem takeWhile_append_of_all {α : Type} {p : α → Bool} {l1 l2 : List α}
    (h : ∀ c ∈ l1, p c = true) :
    (l1 ++ l2).takeWhile p = l1 ++ l2.takeWhile p := by
  induction l1 with
  | nil => simp
  | cons a t ih => simp_all [List.takeWhile_cons]

theorem dropWhile_append_of_all {α : Type} {p : α → Bool} {l1 l2 : List α}
    (h : ∀ c ∈ l1, p c = true) :
    (l1 ++ l2).dropWhile p = l2.dropWhile p := by
  induction l1 with
  | nil => simp
  | cons a t ih => simp_all [List.dropWhile_cons]

theorem processCandidate_fst_dry (cfg : Config) (n? : Option Name)
    (h : cfg.dry_run = true) : (processCandidate cfg n?).1 = [] := by
  unfold processCandidate
  rcases n? with _ | fn
  · rfl
  · rcases hc : captures fn with _ | ⟨p, d, suf⟩ <;> simp only [hc]
    split
    · rfl
    · split
      · split
        · rfl
        · simp [h]
      · rfl

theorem step_fst_nil {head r2 : List (Name × Name) × Option PanicKind}
    (hX : head.1 = []) (hr : r2.1 = []) : (step head r2).1 = [] := by
  unfold step
  rcases h2 : head.2 <;> simp [hX, hr]

theorem step_mem_fst {head r2 : List (Name × Name) × Option PanicKind}
    {r : Name × Name} (h : r ∈ (step head r2).1) : r ∈ head.1 ∨ r ∈ r2.1 := by
  unfold step at h
  rcases h2 : head.2 with _ | pk <;> simp [h2] at h <;> tauto

theorem processCandidate_mem_fst {cfg : Config} {n? : Option Name} {r : Name × Name}
    (h : r ∈ (processCandidate cfg n?).1) :
    ∃ fn newn, n? = some fn ∧ r = (fn, newn) := by
  unfold processCandidate at h
  rcases n? with _ | fn
  · simp at h
  · rcases hc : captures fn with _ | ⟨p, d, suf⟩ <;> simp only [hc] at h
    · simp at h
    · split at h
      · simp at h
      · split at h
        · split at h
          · simp at h
          · split at h
            · simp at h
            · simp at h
              exact ⟨fn, _, rfl, h⟩
        · simp at h

/-! ## Claims -/

/-- C1 counterexample: with recursion disabled a directory entry is NOT
skipped as a non-file.  A directory named `dir1` (the only entry, and a
directory) is matched and renamed to `dir2`, refuting the claim that
the program never renames a directory regardless of the recursive
flag.  In the source, `if recursive && path.is_dir()` short-circuits,
so with `recursive == false` the directory falls into the file branch
and `fs::rename` is called on it. -/
theorem dir_renamed_when_not_recursive_cex :
    processDir ⟨false, none, none, false, none, 1⟩
      [Entry.dir (some ['d','i','r','1']) []]
      = ([(['d','i','r','1'], ['d','i','r','2'])], none) := by
  simp only [processDir]
  decide

/-- C1 (amended): with recursion enabled, every rename source is the
name of a file entry of the tree (directories are only recursed into,
never renamed); with recursion disabled, a directory entry is processed
exactly like a file entry — matched, range-checked and renamed — rather
than skipped. -/
theorem directories_never_renamed (cfg : Config) (l : List Entry) :
    (cfg.recursive = true → ∀ r ∈ (processDir cfg l).1, r.1 ∈ fileNames l)
    ∧ (cfg.recursive = false → ∀ nm children rest,
        processDir cfg (Entry.dir nm children :: rest)
          = processDir cfg (Entry.file nm :: rest)) := by
  constructor
  · intro hrec
    induction l using processDir.induct cfg with
    | case1 => simp [processDir, fileNames]
    | case2 n rest ihrest =>
      intro r hr
      rw [processDir] at hr
      rcases step_mem_fst hr with h | h
      · obtain ⟨fn, newn, hn, hre⟩ := processCandidate_mem_fst h
        subst hn hre
        simp [fileNames]
      · have := ihrest r h
        rcases n with _ | fn <;> simp [fileNames, this]
    | case3 n children rest ihc ihrest =>
      intro r hr
      rw [processDir] at hr
      rw [hrec] at hr
      simp only [if_true] at hr
      rcases step_mem_fst hr with h | h
      · have := ihc r h
        simp [fileNames, this]
      · have := ihrest r h
        simp [fileNames, this]
  · intro hrec nm children rest
    rw [processDir, processDir, hrec]
    simp

/-- C1 witness: in recursive mode over `[dir d [file a1]]` with offset
1, the performed rename is `a1 => a2` and its source is a file name of
the tree, as `directories_never_renamed` requires. -/
theorem directories_never_renamed_witness :
    (⟨true, none, none, false, none, 1⟩ : Config).recursive = true
    ∧ (((['a','1'], ['a','2']) : Name × Name)
        ∈ (processDir ⟨true, none, none, false, none, 1⟩
            [Entry.dir (some ['d']) [Entry.file (some ['a','1'])]]).1)
    ∧ ['a','1'] ∈ fileNames [Entry.dir (some ['d']) [Entry.file (some ['a','1'])]] := by
  have hm : ((['a','1'], ['a','2']) : Name × Name)
      ∈ (processDir ⟨true, none, none, false, none, 1⟩
          [Entry.dir (some ['d']) [Entry.file (some ['a','1'])]]).1 := by
    simp only [processDir]
    decide
  exact ⟨rfl, hm, (directories_never_renamed _ _).1 rfl _ hm⟩

/-- C2 counterexample: the digit run `9999999999` exceeds `i32::MAX`,
and `.parse().unwrap()` panics: the walk is aborted with no rename and
the following entry `a1` (which would otherwise be renamed to `a2`) is
never processed — refuting the claim that such a filename is skipped
or reported and the walk continues. -/
theorem overflow_aborts_walk_cex :
    processDir ⟨false, none, none, false, none, 1⟩
      [Entry.file (some ['9','9','9','9','9','9','9','9','9','9']),
       Entry.file (some ['a','1'])]
      = ([], some PanicKind.parseOverflow) := by
  simp only [processDir]
  decide

/-- C2 (amended): whenever the first digit run of a matched filename
has a value above `i32::MAX = 2147483647`, processing that entry
panics (`parseOverflow`), and the panic aborts the entire remaining
traversal; the value is neither truncated nor wrapped, and the walk
does not continue. -/
theorem parse_overflow_panics (cfg : Config) (fn p d suf : Name) (rest : List Entry)
    (hc : captures fn = some (p, d, suf)) (hv : 2147483647 < digitsVal d) :
    processCandidate cfg (some fn) = ([], some PanicKind.parseOverflow)
    ∧ processDir cfg (Entry.file (some fn) :: rest)
        = ([], some PanicKind.parseOverflow) := by
  have h1 : processCandidate cfg (some fn) = ([], some PanicKind.parseOverflow) := by
    unfold processCandidate
    simp only [hc, hv, if_true]
  refine ⟨h1, ?_⟩
  rw [processDir, h1]
  rfl

/-- C2 witness: `parse_overflow_panics` applied to the filename
`x9999999999`. -/
theorem parse_overflow_panics_witness :
    captures ['x','9','9','9','9','9','9','9','9','9','9']
      = some (['x'], ['9','9','9','9','9','9','9','9','9','9'], [])
    ∧ 2147483647 < digitsVal ['9','9','9','9','9','9','9','9','9','9']
    ∧ processCandidate ⟨false, none, none, false, none, 1⟩
        (some ['x','9','9','9','9','9','9','9','9','9','9'])
        = ([], some PanicKind.parseOverflow)
    ∧ processDir ⟨false, none, none, false, none, 1⟩
        [Entry.file (some ['x','9','9','9','9','9','9','9','9','9','9'])]
        = ([], some PanicKind.parseOverflow) := by
  have h := parse_overflow_panics ⟨false, none, none, false, none, 1⟩
    ['x','9','9','9','9','9','9','9','9','9','9']
    ['x'] ['9','9','9','9','9','9','9','9','9','9'] [] []
    (by decide) (by decide)
  exact ⟨by decide, by decide, h.1, h.2⟩

/-- C3 counterexample: `a7` with offset `-12` and width 3 has adjusted
number `-5`; the claim says the emitted token is `-005`, but the code
panics at `u32::try_from(adjusted_number).unwrap()` and no filename is
built at all. -/
theorem negative_adjusted_width_cex :
    processCandidate ⟨false, none, none, false, some 3, -12⟩
      (some ['a','7']) = ([], some PanicKind.negativeForWidth) := by decide

/-- C3 (amended): for every matched, in-range file whose adjusted
number is negative, when `number_width` is present the program panics
(`negativeForWidth`) instead of emitting any padded token; the `-005`
form described by the spec is never produced. -/
theorem negative_width_panics (cfg : Config) (fn p d suf : Name) (W : Nat)
    (hc : captures fn = some (p, d, suf))
    (hv : digitsVal d ≤ 2147483647)
    (hr : range_ok cfg.start cfg.stop ((digitsVal d : Int)) = true)
    (hw : cfg.number_width = some W)
    (hneg : ((digitsVal d : Int)) + cfg.offset < 0) :
    processCandidate cfg (some fn) = ([], some PanicKind.negativeForWidth) := by
  unfold processCandidate
  simp only [hc]
  rw [if_neg (by omega)]
  simp only [hr, if_true, hw]
  rw [if_pos hneg]

/-- C3 witness: `negative_width_panics` applied to filename `7`,
offset `-8`, width 2. -/
theorem negative_width_panics_witness :
    captures ['7'] = some ([], ['7'], [])
    ∧ digitsVal ['7'] ≤ 2147483647
    ∧ range_ok none none ((digitsVal ['7'] : Int)) = true
    ∧ (⟨false, none, none, false, some 2, -8⟩ : Config).number_width = some 2
    ∧ ((digitsVal ['7'] : Int)) + (-8) < 0
    ∧ processCandidate ⟨false, none, none, false, some 2, -8⟩ (some ['7'])
        = ([], some PanicKind.negativeForWidth) :=
  ⟨by decide, by decide, by decide, rfl, by decide,
   negative_width_panics ⟨false, none, none, false, some 2, -8⟩ ['7'] [] ['7'] [] 2
     (by decide) (by decide) (by decide) rfl (by decide)⟩

/-- C4 (confirmed): for every `n` with `1 ≤ n ≤ i32::MAX`, the
table-driven `log10` returns exactly the number of decimal digits of
`n`, with no off-by-one at any power-of-ten boundary (the examples
`log10 9 = 1`, `log10 10 = 2`, `log10 99 = 2`, `log10 100 = 3` and the
exactness at every power of ten up to `i32::MAX` are instances). -/
theorem log10_counts_decimal_digits (n : Nat) (h1 : 1 ≤ n) (h2 : n ≤ 2147483647) :
    log10 n = (Nat.digits 10 n).length := by
  have h32 : (2:Nat) ^ 32 = 4294967296 := by norm_num
  have hlt : n < 2 ^ 32 := by omega
  obtain ⟨hlo, hhi⟩ := bitLen_bounds 32 n h1 hlt
  have hlog2 : log2 n = bitLen 32 n := log2_spec n h1
  have hk32 : bitLen 32 n ≤ 32 := bitLen_le 32 n
  have hk1 : 1 ≤ bitLen 32 n := by
    by_contra hc
    have : bitLen 32 n = 0 := by omega
    rw [this] at hhi
    simp at hhi
    omega
  have hk31 : bitLen 32 n ≤ 31 := by
    by_contra hc
    have hke : bitLen 32 n = 32 := by omega
    rw [hke] at hlo
    have : (2:Nat) ^ (32 - 1) = 2147483648 := by norm_num
    omega
  have hkl : bitLen 32 n < 33 := by omega
  obtain ⟨g, hg⟩ := Option.isSome_iff_exists.mp (guess_isSome _ hkl)
  have hgD : (GUESS[bitLen 32 n]?).getD 0 = g := by rw [hg]; rfl
  have hg9 : g ≤ 9 := by rw [← hgD]; exact guess_le9 _ hkl
  have hA := (guess_fact _ hkl hk1).1
  have hB := (guess_fact _ hkl hk1).2
  rw [hgD] at hA hB
  have hcomp : log10 n = g + if 10 ^ g ≤ n then 1 else 0 := by
    unfold log10 log10?
    simp only [hlog2, hg, ten_fact g (by omega), Option.getD_some]
  rw [hcomp, Nat.digits_len 10 n (by norm_num) (by omega)]
  have hlo10 : 10 ^ g ≤ 10 * n := by omega
  have hhi10 : n < 10 ^ (g + 1) := by omega
  by_cases hc : 10 ^ g ≤ n
  · rw [if_pos hc, Nat.log_eq_of_pow_le_of_lt_pow hc hhi10]
  · rw [if_neg hc]
    push_neg at hc
    have hg1 : 1 ≤ g := by
      by_contra hgc
      have : g = 0 := by omega
      rw [this] at hc
      simp at hc
      omega
    have e : (10:Nat) ^ g = 10 ^ (g - 1) * 10 := by
      conv_lhs => rw [show g = (g - 1) + 1 from by omega, pow_succ]
    have hlo' : 10 ^ (g - 1) ≤ n := by omega
    have hhi' : n < 10 ^ ((g - 1) + 1) := by rw [Nat.sub_add_cancel hg1]; exact hc
    rw [Nat.log_eq_of_pow_le_of_lt_pow hlo' hhi']
    omega

/-- C4 witness: `log10_counts_decimal_digits` at the power of ten
`10^9`, the largest one within `i32` range. -/
theorem log10_counts_decimal_digits_witness :
    1 ≤ 1000000000 ∧ (1000000000 : Nat) ≤ 2147483647
    ∧ log10 1000000000 = (Nat.digits 10 1000000000).length :=
  ⟨by norm_num, by norm_num,
   log10_counts_decimal_digits 1000000000 (by norm_num) (by norm_num)⟩

/-- C5 counterexample: `log10 0 = 0`, not 1 as the claim's
`decimal_digit_count(0) = 1` requires; consequently for the file `5`
with offset `-5` (adjusted number 0) and width 3 the emitted numeric
token is `0000` — four characters, not `max 3 1 = 3`. -/
theorem log10_zero_cex : log10 0 = 0
    ∧ processCandidate ⟨false, none, none, false, some 3, -5⟩ (some ['5'])
        = ([(['5'], ['0','0','0','0'])], none)
    ∧ (['0','0','0','0'] : Name).length ≠ max 3 1 := by decide

/-- C5 (amended): the code's digit count of 0 is 0, so when the
adjusted number is 0 and `number_width = W` is present (a `u32`, so
`W < 2^32`): for `W < 2^31` the pad is `W` zeros — not `W - 1` — and
the numeric token is exactly `W + 1` characters long; for
`W ≥ 2^31` the cast `width as i32` wraps negative, the pad clamps to
0, and the token is the single character `0`.  In neither case is the
token `max(W, 1)` characters. -/
theorem zero_adjusted_token (W : Nat) (hW : W < 4294967296) :
    processCandidate ⟨false, none, none, false, some W, -5⟩ (some ['5'])
      = ([(['5'], List.replicate (if W < 2147483648 then W else 0) '0' ++ ['0'])], none)
    ∧ (List.replicate (if W < 2147483648 then W else 0) '0' ++ ['0']).length
        = if W < 2147483648 then W + 1 else 1 := by
  constructor
  · unfold processCandidate
    simp only [show captures ['5'] = some ([], ['5'], []) from rfl,
               show digitsVal ['5'] = 5 from rfl]
    norm_num [range_ok]
    simp only [show ((5:Int) + -5) = 0 from rfl, show Int.toNat 0 = 0 from rfl,
               show log10 0 = 0 from rfl, show intStr 0 = ['0'] from rfl]
    have hpad : ((0:Int) ⊔ (i32_of_u32 W - ((0:Nat):Int))).toNat
        = if W < 2147483648 then W else 0 := by
      unfold i32_of_u32
      by_cases h : W < 2147483648
      · simp only [if_pos h]
        push_cast
        omega
      · simp only [if_neg h]
        push_cast
        omega
    rw [hpad]
  · by_cases h : W < 2147483648 <;> simp [h]

/-- C5 witness: `zero_adjusted_token` at `W = 2^31`, the smallest
accepted width on which the `width as i32` cast wraps: the pad clamps
to 0 and the token for adjusted number 0 is just `0`. -/
theorem zero_adjusted_token_witness : (2147483648 : Nat) < 4294967296
    ∧ (processCandidate ⟨false, none, none, false, some 2147483648, -5⟩ (some ['5'])
        = ([(['5'], List.replicate (if 2147483648 < 2147483648 then 2147483648 else 0) '0'
            ++ ['0'])], none)
      ∧ (List.replicate (if 2147483648 < 2147483648 then 2147483648 else 0) '0'
          ++ ['0']).length = if 2147483648 < 2147483648 then 2147483648 + 1 else 1) :=
  ⟨by norm_num, zero_adjusted_token 2147483648 (by norm_num)⟩

/-- C6 counterexample: the filename `a1\nb` decomposes as prefix `a`
(digit-free), first maximal digit run `1`, suffix `\nb`, so the claim
demands a match with that triple; but the code's pattern cannot match
it at all (`.` in the regex does not match `'\n'`), and the matcher
returns no-match. -/
theorem newline_never_matches_cex : captures ['a','1','\n','b'] = none
    ∧ ['a','1','\n','b'] = ['a'] ++ ['1'] ++ ['\n','b'] := by decide

/-- C6 (amended): a filename with no ASCII digit never matches; and a
filename `p ++ d ++ suf` — `p` digit-free, `d` a nonempty digit run,
`suf` not starting with a digit — yields exactly the captures
`(p, d, suf)` with the suffix verbatim (later digit runs untouched),
provided neither `p` nor `suf` contains a newline character; with a
newline anywhere the pattern cannot match, because `.` does not match
`'\n'`. -/
theorem matcher_first_digit_run :
    (∀ s : Name, (∀ c ∈ s, c.isDigit = false) → captures s = none)
    ∧ (∀ p d suf : Name,
        (∀ c ∈ p, c.isDigit = false) →
        d ≠ [] → (∀ c ∈ d, c.isDigit = true) →
        (∀ c ∈ suf.head?, c.isDigit = false) →
        '\n' ∉ p → '\n' ∉ suf →
        captures (p ++ d ++ suf) = some (p, d, suf)) := by
  constructor
  · intro s h
    unfold captures
    split
    · rfl
    · have hd : s.dropWhile (fun c => !c.isDigit) = [] :=
        List.dropWhile_eq_nil_iff.mpr (fun x hx => by simp [h x hx])
      rw [hd]
  · intro p d suf hp hd0 hd hsuf hnp hns
    obtain ⟨c, d', rfl⟩ : ∃ c d', d = c :: d' := by
      cases d with
      | nil => exact absurd rfl hd0
      | cons c d' => exact ⟨c, d', rfl⟩
    have hcd : c.isDigit = true := hd c (by simp)
    have hnl : '\n' ∉ p ++ (c :: d') ++ suf := by
      simp only [List.mem_append, List.mem_cons]
      rintro ((h1 | h2) | h3)
      · exact hnp h1
      · rcases h2 with h2 | h2
        · subst h2
          exact absurd hcd (by decide)
        · exact absurd (hd _ (List.mem_cons_of_mem c h2)) (by decide)
      · exact hns h3
    unfold captures
    rw [if_neg hnl]
    have hpall : ∀ x ∈ p, (fun c => !c.isDigit) x = true := fun x hx => by simp [hp x hx]
    have hdall : ∀ x ∈ (c :: d'), Char.isDigit x = true := hd
    have hdrop : (p ++ (c :: d') ++ suf).dropWhile (fun c => !c.isDigit)
        = c :: (d' ++ suf) := by
      rw [List.append_assoc, dropWhile_append_of_all hpall]
      simp [List.dropWhile_cons, hcd]
    have htake : (p ++ (c :: d') ++ suf).takeWhile (fun c => !c.isDigit) = p := by
      rw [List.append_assoc, takeWhile_append_of_all hpall]
      simp [List.takeWhile_cons, hcd]
    have htake2 : (c :: (d' ++ suf)).takeWhile Char.isDigit = c :: d' := by
      have : ((c :: d') ++ suf).takeWhile Char.isDigit
          = (c :: d') ++ suf.takeWhile Char.isDigit := takeWhile_append_of_all hdall
      simp only [List.cons_append] at this
      rw [this]
      cases hsx : suf with
      | nil => simp
      | cons x t =>
        have : x.isDigit = false := by
          apply hsuf
          simp [hsx]
        simp [List.takeWhile_cons, this]
    have hdrop2 : (c :: (d' ++ suf)).dropWhile Char.isDigit = suf := by
      have : ((c :: d') ++ suf).dropWhile Char.isDigit = suf.dropWhile Char.isDigit :=
        dropWhile_append_of_all hdall
      simp only [List.cons_append] at this
      rw [this]
      cases hsx : suf with
      | nil => simp
      | cons x t =>
        have : x.isDigit = false := by
          apply hsuf
          simp [hsx]
        simp [List.dropWhile_cons, this]
    rw [hdrop, htake]
    show some (p, (c :: (d' ++ suf)).takeWhile Char.isDigit,
          (c :: (d' ++ suf)).dropWhile Char.isDigit) = some (p, c :: d', suf)
    rw [htake2, hdrop2]

/-- C6 witness: `matcher_first_digit_run` applied to `a12b3` — prefix
`a`, first run `12`, suffix `b3` whose later digit `3` is untouched. -/
theorem matcher_first_digit_run_witness :
    (∀ c ∈ (['a'] : Name), c.isDigit = false)
    ∧ (['1','2'] : Name) ≠ []
    ∧ (∀ c ∈ (['1','2'] : Name), c.isDigit = true)
    ∧ (∀ c ∈ (['b','3'] : Name).head?, c.isDigit = false)
    ∧ '\n' ∉ (['a'] : Name) ∧ '\n' ∉ (['b','3'] : Name)
    ∧ captures (['a'] ++ ['1','2'] ++ ['b','3']) = some (['a'], ['1','2'], ['b','3']) :=
  ⟨by decide, by decide, by decide, by decide, by decide, by decide,
   matcher_first_digit_run.2 ['a'] ['1','2'] ['b','3']
     (by decide) (by decide) (by decide) (by decide) (by decide) (by decide)⟩

/-- C7 (confirmed): with `dry_run = true` no rename is performed for
any entry of any tree, recursive or not — the walker's list of
performed filesystem mutations is empty, so the directory contents are
untouched. -/
theorem dry_run_no_renames (cfg : Config) (l : List Entry) (h : cfg.dry_run = true) :
    (processDir cfg l).1 = [] := by
  induction l using processDir.induct cfg with
  | case1 => simp [processDir]
  | case2 n rest ihrest =>
    rw [processDir]
    exact step_fst_nil (processCandidate_fst_dry cfg n h) ihrest
  | case3 n children rest ihc ihrest =>
    rw [processDir]
    rcases hr : cfg.recursive with _ | _ <;>
      simp only [hr, if_true, if_false, Bool.false_eq_true]
    · exact step_fst_nil (processCandidate_fst_dry cfg n h) ihrest
    · exact step_fst_nil ihc ihrest

/-- C7 witness: a dry run over a directory with the matching file `a1`
performs no rename. -/
theorem dry_run_no_renames_witness :
    (⟨false, none, none, true, none, 1⟩ : Config).dry_run = true
    ∧ (processDir ⟨false, none, none, true, none, 1⟩
        [Entry.file (some ['a','1'])]).1 = [] :=
  ⟨rfl, dry_run_no_renames ⟨false, none, none, true, none, 1⟩
    [Entry.file (some ['a','1'])] rfl⟩

/-- C8 (confirmed): the range filter accepts a number iff the start
bound is absent or at most the number, and the end bound is absent or
at least the number — both bounds inclusive.  The walker applies it to
the parsed (pre-offset) number: in `processCandidate` the argument of
`range_ok` is `digitsVal d`, before `cfg.offset` is added. -/
theorem range_filter_inclusive_iff (start stop : Option Int) (number : Int) :
    range_ok start stop number = true ↔
      (start = none ∨ ∃ s, start = some s ∧ s ≤ number)
      ∧ (stop = none ∨ ∃ e, stop = some e ∧ number ≤ e) := by
  rcases start with _ | s <;> rcases stop with _ | e <;> simp [range_ok]

/-- C9 (confirmed): for every `u32` input, `log2` is at most 32 so the
`GUESS` index (table length 33) is in bounds, the guessed digit count
is at most 9 so the `TEN_TO_THE` index (table length 10) is in bounds,
and `log10` therefore never panics. -/
theorem log10_never_panics (n : Nat) (h : n < 4294967296) :
    log2 n ≤ 32 ∧ (GUESS[log2 n]?).isSome = true
    ∧ (GUESS[log2 n]?).getD 0 ≤ 9
    ∧ (TEN_TO_THE[(GUESS[log2 n]?).getD 0]?).isSome = true
    ∧ (log10? n).isSome = true := by
  have hle : log2 n ≤ 32 := log2_le_32 n
  have hkl : log2 n < 33 := by omega
  have hsome := guess_isSome _ hkl
  have hg9 := guess_le9 _ hkl
  obtain ⟨g, hg⟩ := Option.isSome_iff_exists.mp hsome
  have hgD : (GUESS[log2 n]?).getD 0 = g := by rw [hg]; rfl
  have ht := ten_fact g (by omega)
  refine ⟨hle, hsome, hg9, ?_, ?_⟩
  · rw [hgD, ht]; rfl
  · unfold log10?
    simp only [hg, ht]
    rfl

/-- C9 witness: `log10_never_panics` at the largest `u32`,
`4294967295`. -/
theorem log10_never_panics_witness : (4294967295 : Nat) < 4294967296
    ∧ (log2 4294967295 ≤ 32 ∧ (GUESS[log2 4294967295]?).isSome = true
      ∧ (GUESS[log2 4294967295]?).getD 0 ≤ 9
      ∧ (TEN_TO_THE[(GUESS[log2 4294967295]?).getD 0]?).isSome = true
      ∧ (log10? 4294967295).isSome = true) :=
  ⟨by norm_num, log10_never_panics 4294967295 (by norm_num)⟩

/-- C10 counterexample: in recursive mode a subdirectory whose name is
not valid UTF-8 is recursed into via its `path`, its name is never
passed through `to_str().unwrap()`, and the walk completes without
panicking — refuting the claim that the walker panics for ANY entry
with a non-UTF-8 name. -/
theorem recursive_dir_non_utf8_no_panic_cex :
    processDir ⟨true, none, none, false, none, 0⟩
      [Entry.dir none []] = ([], none) := by
  simp only [processDir]
  decide

/-- C10 (amended): every entry handled by the file branch — any file
entry, and any directory entry when recursion is disabled — panics
(`invalidUtf8`) when its name is not valid UTF-8, aborting the entire
traversal (the remaining entries are not processed); only a directory
entry in recursive mode escapes the check. -/
theorem non_utf8_name_panics (cfg : Config) (rest children : List Entry) :
    processDir cfg (Entry.file none :: rest) = ([], some PanicKind.invalidUtf8)
    ∧ (cfg.recursive = false →
        processDir cfg (Entry.dir none children :: rest)
          = ([], some PanicKind.invalidUtf8)) := by
  constructor
  · rw [processDir]
    rfl
  · intro h
    rw [processDir, h]
    simp only [Bool.false_eq_true, if_false]
    rfl

/-- C10 witness: `non_utf8_name_panics` with recursion disabled: both a
file and a directory with a non-UTF-8 name abort the walk before the
following entry `a1` is processed. -/
theorem non_utf8_name_panics_witness :
    (⟨false, none, none, false, none, 0⟩ : Config).recursive = false
    ∧ processDir ⟨false, none, none, false, none, 0⟩
        [Entry.file none, Entry.file (some ['a','1'])]
        = ([], some PanicKind.invalidUtf8)
    ∧ processDir ⟨false, none, none, false, none, 0⟩
        [Entry.dir none [], Entry.file (some ['a','1'])]
        = ([], some PanicKind.invalidUtf8) :=
  ⟨rfl, (non_utf8_name_panics ⟨false, none, none, false, none, 0⟩
      [Entry.file (some ['a','1'])] []).1,
   (non_utf8_name_panics ⟨false, none, none, false, none, 0⟩
      [Entry.file (some ['a','1'])] []).2 rfl⟩

end FFN
